/-
Verification of the football-league standings program (src/src/main.rs)
against its natural-language specification.

The program is shallowly embedded: strings are Lean `String`s (manipulated
through their `List Char` data where the Rust code uses byte/char scanning),
the `u32` scores are `Nat` with an explicit `< 2^32` bound in integer
parsing and an explicit `% 2^32` wrap in the accumulating `+=` (the
release-build wrapping semantics of `u32` addition), the
`HashMap<String, u32>` league is an association list in insertion order
(the final ranking theorems show the rendered output is invariant under
permutation of that list, which discharges the unspecified hash-map
iteration order), and process effects (stdout, stderr, exit) are reified
in the `RunResult` type.
-/
import Mathlib

namespace League

/-! ## Character-list string utilities mirroring the Rust std functions -/

/-- `str::split(sep)` on the character list of a string: splits at every
occurrence of `sep`, keeping empty pieces (so the result is always
nonempty). -/
def splitChar (sep : Char) : List Char → List (List Char)
  | [] => [[]]
  | c :: rest =>
    if c = sep then [] :: splitChar sep rest
    else
      match splitChar sep rest with
      | [] => [[c]]
      | g :: gs => (c :: g) :: gs

/-- `str::split_terminator(sep)`: like `split`, but a single trailing empty
piece (arising from a trailing separator or an empty input) is dropped. -/
def splitTerminator (sep : Char) (cs : List Char) : List (List Char) :=
  let parts := splitChar sep cs
  if parts.getLast? = some [] then parts.dropLast else parts

/-- `str::trim`: drop leading and trailing whitespace characters. -/
def trimChars (cs : List Char) : List Char :=
  ((cs.dropWhile Char.isWhitespace).reverse.dropWhile Char.isWhitespace).reverse

/-- Split at whitespace, keeping empty pieces (helper for `splitWs`). -/
def splitPredWs : List Char → List (List Char)
  | [] => [[]]
  | c :: rest =>
    if c.isWhitespace then [] :: splitPredWs rest
    else
      match splitPredWs rest with
      | [] => [[c]]
      | g :: gs => (c :: g) :: gs

/-- `str::split_whitespace`: the maximal non-whitespace runs, in order;
no empty pieces are produced. -/
def splitWs (cs : List Char) : List (List Char) :=
  (splitPredWs cs).filter (· ≠ [])

/-- `str::parse::<u32>`: an optional leading `+`, then one or more decimal
digits, value below `2 ^ 32`; anything else fails. -/
def parseU32 (cs : List Char) : Option Nat :=
  let ds := match cs with
    | '+' :: rest => rest
    | other => other
  if ds = [] then none
  else if ds.all Char.isDigit then
    let n := ds.foldl (fun a c => a * 10 + (c.toNat - '0'.toNat)) 0
    if n < 2 ^ 32 then some n else none
  else none

/-! ## Data model (`main.rs` lines 8-25) -/

/-- `type TeamName = String;` -/
abbrev TeamName := String

/-- `type League = HashMap<TeamName, u32>;`, embedded as an association
list in insertion order. -/
abbrev LeagueMap := List (TeamName × Nat)

/-- `enum MatchResult { Win { won, lost }, Draw(TeamName, TeamName) }` -/
inductive MatchResult where
  | win (won lost : TeamName)
  | draw (team1 team2 : TeamName)
  deriving DecidableEq, Repr

/-- `struct Tokens { team1: (TeamName, u32), team2: (TeamName, u32) }` -/
structure Tokens where
  team1 : TeamName × Nat
  team2 : TeamName × Nat
  deriving DecidableEq, Repr

/-! ## Lexer (`main.rs` lines 110-137) -/

/-- One iteration of the `for half in halfs` loop body: trim the half,
fail on an empty half, split on whitespace, join all but the last token
into the team name, and parse the last token as a `u32`. -/
def lexHalf (half : List Char) : Option (TeamName × Nat) :=
  let h := trimChars half
  if h = [] then none
  else
    let parts := splitWs h
    let team := String.mk (List.intercalate [' '] parts.dropLast)
    match parseU32 (parts.getLast?.getD []) with
    | none => none
    | some score => some (team, score)

/-- The whole `for` loop: lex every half, aborting with `none` at the
first malformed half. -/
def lexHalves : List (List Char) → Option (List (TeamName × Nat))
  | [] => some []
  | h :: rest =>
    match lexHalf h with
    | none => none
    | some t => (lexHalves rest).map (t :: ·)

/-- Outcome of `lex`: the Rust function returns `Option<Tokens>`, but the
final indexing `tokens[0]` / `tokens[1]` panics when fewer than two halves
were lexed, which we reify as a third outcome. -/
inductive LexResult where
  | panic
  | malformed
  | ok (tokens : Tokens)
  deriving DecidableEq, Repr

/-- `fn lex(string: &str) -> Option<Tokens>`: split the line on `,` with
`split_terminator`, lex each half, then take the first two token pairs
(indexing panics when fewer than two halves exist; extra halves are
silently ignored). -/
def lex (line : String) : LexResult :=
  match lexHalves (splitTerminator ',' line.data) with
  | none => .malformed
  | some tokens =>
    match tokens with
    | t1 :: t2 :: _ => .ok ⟨t1, t2⟩
    | _ => .panic

/-! ## Classifier (`main.rs` lines 139-154) -/

/-- `fn parse(tokens: Tokens) -> MatchResult`: compare the two scores. -/
def parse (tokens : Tokens) : MatchResult :=
  match compare tokens.team1.2 tokens.team2.2 with
  | .gt => .win tokens.team1.1 tokens.team2.1
  | .eq => .draw tokens.team1.1 tokens.team2.1
  | .lt => .win tokens.team2.1 tokens.team1.1

/-! ## Accumulator (`main.rs` lines 59-77) -/

/-- `league.entry(k).and_modify(|score| *score += add).or_insert(dflt)`:
add `add` to the key's value when present, else append `(k, dflt)`. The
`+=` is `u32` addition, which wraps modulo `2 ^ 32` on overflow (the
release-build semantics of the source). -/
def entryAddOrInsert (k : TeamName) (add dflt : Nat) : LeagueMap → LeagueMap
  | [] => [(k, dflt)]
  | (k', v) :: rest =>
    if k' = k then (k', (v + add) % 2 ^ 32) :: rest
    else (k', v) :: entryAddOrInsert k add dflt rest

/-- `league.entry(k).or_insert(dflt)`: keep the key's value when present,
else append `(k, dflt)`. -/
def entryOrInsert (k : TeamName) (dflt : Nat) : LeagueMap → LeagueMap
  | [] => [(k, dflt)]
  | (k', v) :: rest =>
    if k' = k then (k', v) :: rest
    else (k', v) :: entryOrInsert k dflt rest

/-- The `match match_result` statement updating the league. -/
def accumulate (league : LeagueMap) : MatchResult → LeagueMap
  | .win won lost => entryOrInsert lost 0 (entryAddOrInsert won 3 3 league)
  | .draw team1 team2 =>
      entryAddOrInsert team2 1 1 (entryAddOrInsert team1 1 1 league)

/-- Lookup of a team's points (`HashMap` lookup on the association list). -/
def lookupTeam (k : TeamName) : LeagueMap → Option Nat
  | [] => none
  | (k', v) :: rest => if k' = k then some v else lookupTeam k rest

/-! ## Ranker / renderer (`main.rs` lines 79-107) -/

/-- Rust's `Ord` on `String` restricted to two character lists: the
lexicographic `≤` used by `a.1.cmp(&b.1)` in the tie-break branch. -/
def nameLeB : List Char → List Char → Bool
  | [], _ => true
  | _ :: _, [] => false
  | a :: as, b :: bs =>
    if a < b then true
    else if b < a then false
    else nameLeB as bs

/-- The `sort_by` comparator as a relation: `a` precedes `b` when `a`'s
score is higher, or the scores are equal and `a`'s team name is
lexicographically no greater. The pairs are `(score, team)` as produced by
the `map` on line 82. -/
def rankLE (a b : Nat × TeamName) : Prop :=
  b.1 < a.1 ∨ (a.1 = b.1 ∧ nameLeB a.2.data b.2.data = true)

instance : DecidableRel rankLE := fun a b => by
  unfold rankLE; infer_instance

/-- `league.sort_by(...)` with the comparator of lines 86-94. -/
def sortLeague (ps : List (Nat × TeamName)) : List (Nat × TeamName) :=
  List.insertionSort rankLE ps

/-- `let unit = if *score == 1 { "pt" } else { "pts" };` -/
def unitFor (score : Nat) : String :=
  if score = 1 then "pt" else "pts"

/-- `format!("{line}. {team} {score} {unit}\n")` for one table row. -/
def renderRow (line : Nat) (team : TeamName) (score : Nat) : String :=
  toString line ++ ". " ++ team ++ " " ++ toString score ++ " "
    ++ unitFor score ++ "\n"

/-- The `for (mut line, (score, team)) in league.iter().enumerate()` loop
appending one formatted row per team to `table`. -/
def tableLoop (acc : String) (i : Nat) : List (Nat × TeamName) → String
  | [] => acc
  | (score, team) :: rest =>
      tableLoop (acc ++ renderRow (i + 1) team score) (i + 1) rest

/-- Lines 79-107: flip the league into `(score, team)` pairs, sort, render. -/
def renderLeague (league : LeagueMap) : String :=
  tableLoop "" 0 (sortLeague (league.map fun p => (p.2, p.1)))

/-! ## Driver (`main.rs` lines 39-108 and `main`) -/

/-- The observable result of a run: the table printed to stdout, or an
`eprintln!` + `exit(1)` carrying the reported 1-indexed line number, or a
panic (which aborts the process with exit code 101 and no table). -/
inductive RunResult where
  | output (table : String)
  | errorExit (lineNo : Nat)
  | panicExit
  deriving DecidableEq, Repr

/-- The process exit status of each outcome (`exit(1)` on a reported
malformed line; Rust panics terminate the process with status 101). -/
def exitCode : RunResult → Nat
  | .output _ => 0
  | .errorExit _ => 1
  | .panicExit => 101

/-- What reaches stdout: only a successful run prints the table. -/
def stdoutOf : RunResult → Option String
  | .output table => some table
  | _ => none

/-- The `eprintln!("Error: invalid input on line: {}", line_n + 1)`
diagnostic written to stderr on a malformed line. -/
def stderrOf : RunResult → Option String
  | .errorExit lineNo => some ("Error: invalid input on line: " ++ toString lineNo)
  | _ => none

/-- The `while let` loop of `football_league`: `n` is the 0-indexed line
counter from `enumerate()`; a blank line (or end of input) breaks the loop
and renders, a malformed line reports `n + 1` and exits. -/
def flLoop (league : LeagueMap) (n : Nat) : List String → RunResult
  | [] => .output (renderLeague league)
  | line :: rest =>
    if trimChars line.data = [] then .output (renderLeague league)
    else
      match lex line with
      | .malformed => .errorExit (n + 1)
      | .panic => .panicExit
      | .ok tokens => flLoop (accumulate league (parse tokens)) (n + 1) rest

/-- `fn football_league(input: impl Read) -> String`, with the input
stream already divided into its lines and the process effects reified. -/
def footballLeague (lines : List String) : RunResult :=
  flLoop [] 0 lines

/-! ## Specification-side functions (for the refinement claims) -/

/-- A comma-separated half is malformed exactly when, after trimming, it
is empty or its trailing whitespace-separated token does not parse as a
non-negative integer (the spec's two per-half failure conditions). -/
def badHalf (half : List Char) : Prop :=
  trimChars half = [] ∨ parseU32 ((splitWs (trimChars half)).getLast?.getD []) = none

instance : DecidablePred badHalf := fun h => by
  unfold badHalf; infer_instance

/-- The spec's rendering contract, row by row: rank, then team, then
points, then the singular unit exactly for one point, each row ending in
its own newline; ranks count up from the given start. -/
def specRows (rank : Nat) : List (Nat × TeamName) → List String
  | [] => []
  | (points, team) :: rest =>
      (toString rank ++ ". " ++ team ++ " " ++ toString points ++ " "
        ++ (if points = 1 then "pt" else "pts") ++ "\n") :: specRows (rank + 1) rest

/-- Points a team earns from one classified outcome: 3 for each win slot
it occupies, 1 for each draw slot, 0 as a loser. -/
def earned (t : TeamName) : MatchResult → Nat
  | .win won _ => if t = won then 3 else 0
  | .draw team1 team2 => (if t = team1 then 1 else 0) + (if t = team2 then 1 else 0)

/-- A team is mentioned by an outcome when it fills one of its slots. -/
def mentions (t : TeamName) : MatchResult → Prop
  | .win won lost => t = won ∨ t = lost
  | .draw team1 team2 => t = team1 ∨ t = team2

instance (t : TeamName) : DecidablePred (mentions t) := fun mr =>
  match mr with
  | .win won lost => inferInstanceAs (Decidable (t = won ∨ t = lost))
  | .draw team1 team2 => inferInstanceAs (Decidable (t = team1 ∨ t = team2))

/-- A team is mentioned by a sequence of outcomes when some outcome
mentions it. -/
def mentionsAny (t : TeamName) (os : List MatchResult) : Prop :=
  ∃ mr ∈ os, mentions t mr

instance (t : TeamName) (os : List MatchResult) : Decidable (mentionsAny t os) := by
  unfold mentionsAny; infer_instance

/-- Total points a team earns across a sequence of outcomes. -/
def totalEarned (t : TeamName) (os : List MatchResult) : Nat :=
  (os.map (earned t)).sum

/-- Folding a sequence of outcomes into a league mapping, line by line. -/
def applyOutcomes (league : LeagueMap) (os : List MatchResult) : LeagueMap :=
  os.foldl accumulate league

/-! ## Helper lemmas -/

theorem strFoldlAppend (l : List String) :
    ∀ a b : String, l.foldl (fun r s => r ++ s) (a ++ b) = a ++ l.foldl (fun r s => r ++ s) b := by
  induction l with
  | nil => intro a b; rfl
  | cons s l ih =>
    intro a b
    show l.foldl (fun r s => r ++ s) (a ++ b ++ s) = _
    rw [String.append_assoc, ih]
    rfl

theorem strJoinCons (s : String) (l : List String) :
    String.join (s :: l) = s ++ String.join l := by
  show l.foldl (fun r t => r ++ t) ("" ++ s) = s ++ String.join l
  rw [show ("" ++ s : String) = s from rfl, show s = s ++ "" from (String.append_empty s).symm]
  rw [strFoldlAppend l s ""]
  rw [String.append_empty]
  rfl

theorem tableLoopEqJoin (ps : List (Nat × TeamName)) :
    ∀ (acc : String) (i : Nat),
      tableLoop acc i ps = acc ++ String.join (specRows (i + 1) ps) := by
  induction ps with
  | nil =>
    intro acc i
    show acc = acc ++ String.join []
    rw [show String.join [] = "" from rfl, String.append_empty]
  | cons p rest ih =>
    obtain ⟨score, team⟩ := p
    intro acc i
    show tableLoop (acc ++ renderRow (i + 1) team score) (i + 1) rest = _
    rw [ih, specRows, strJoinCons, ← String.append_assoc]
    rfl

/-! ## Claim theorems -/

/-- C1: on the five-line example input followed by a blank line, the whole
pipeline produces exactly the expected five-line standings table. -/
theorem c1_full_league_output :
    footballLeague
        ["Lions 3, Snakes 3", "Tarantulas 1, FC Awesome 0", "Lions 1, FC Awesome 1",
          "Tarantulas 3, Snakes 1", "Lions 4, Grouches 0", ""] =
      .output ("1. Tarantulas 6 pts\n2. Lions 5 pts\n3. FC Awesome 1 pt\n"
        ++ "4. Snakes 1 pt\n5. Grouches 0 pts\n") := by
  decide

/-- C4: the classifier maps a pair of (team, score) tokens to
`Win{won := team1, lost := team2}` when the first score is greater, to
`Win{won := team2, lost := team1}` when it is smaller, and to
`Draw(team1, team2)` when the scores are equal; it is a total Lean
function, so it has no fallible path. -/
theorem c4_parse_classification (a b : TeamName) (x y : Nat) :
    (y < x → parse ⟨(a, x), (b, y)⟩ = .win a b) ∧
    (x < y → parse ⟨(a, x), (b, y)⟩ = .win b a) ∧
    (x = y → parse ⟨(a, x), (b, y)⟩ = .draw a b) := by
  refine ⟨fun h => ?_, fun h => ?_, fun h => ?_⟩ <;> show (match compare x y with
    | .gt => MatchResult.win a b
    | .eq => MatchResult.draw a b
    | .lt => MatchResult.win b a) = _
  · rw [Nat.compare_eq_gt.mpr h]
  · rw [Nat.compare_eq_lt.mpr h]
  · rw [Nat.compare_eq_eq.mpr h]

/-- Witness for C4 at concrete scores 2-1, 1-2 and 2-2. -/
theorem c4_witness :
    parse ⟨("A", 2), ("B", 1)⟩ = .win "A" "B" ∧
    parse ⟨("A", 1), ("B", 2)⟩ = .win "B" "A" ∧
    parse ⟨("A", 2), ("B", 2)⟩ = .draw "A" "B" :=
  ⟨(c4_parse_classification "A" "B" 2 1).1 (by decide),
   (c4_parse_classification "A" "B" 1 2).2.1 (by decide),
   (c4_parse_classification "A" "B" 2 2).2.2 rfl⟩

/-- C7: the rendering loop produces, row by row in rank order, exactly
`"{rank}. {team} {points} {unit}\n"` with the unit singular precisely at
one point; the full output is the plain concatenation of the rows, and an
empty standings list renders as the empty string. -/
theorem c7_rendering (ps : List (Nat × TeamName)) :
    tableLoop "" 0 ps = String.join (specRows 1 ps) ∧
    tableLoop "" 0 ([] : List (Nat × TeamName)) = "" ∧
    (∀ score : Nat, (unitFor score = "pt" ↔ score = 1) ∧
      (unitFor score = "pts" ↔ score ≠ 1)) ∧
    (∀ rank team score, renderRow rank team score =
      toString rank ++ ". " ++ team ++ " " ++ toString score ++ " "
        ++ unitFor score ++ "\n") := by
  refine ⟨?_, rfl, fun score => ?_, fun _ _ _ => rfl⟩
  · have h := tableLoopEqJoin ps "" 0
    rwa [show ((0 : Nat) + 1) = 1 from rfl, show ("" ++ String.join (specRows 1 ps)) =
      String.join (specRows 1 ps) from rfl] at h
  · by_cases h : score = 1 <;> simp [unitFor, h]

/-- Witness for C7 on a concrete two-row standings list. -/
theorem c7_witness :
    tableLoop "" 0 [(3, "A"), (1, "B")] = String.join (specRows 1 [(3, "A"), (1, "B")]) :=
  (c7_rendering [(3, "A"), (1, "B")]).1

theorem nameLeBConsIff (a b : Char) (as bs : List Char) :
    nameLeB (a :: as) (b :: bs) = true ↔
      a < b ∨ (¬ a < b ∧ ¬ b < a ∧ nameLeB as bs = true) := by
  by_cases h1 : a < b <;> by_cases h2 : b < a <;> simp [nameLeB, h1, h2]

theorem nameLeBTotal : ∀ as bs : List Char, nameLeB as bs = true ∨ nameLeB bs as = true := by
  intro as
  induction as with
  | nil => intro bs; exact Or.inl rfl
  | cons a as ih =>
    intro bs
    cases bs with
    | nil => exact Or.inr rfl
    | cons b bs =>
      rcases lt_trichotomy a b with h | h | h
      · exact Or.inl ((nameLeBConsIff a b as bs).mpr (Or.inl h))
      · subst h
        rcases ih bs with h' | h'
        · exact Or.inl ((nameLeBConsIff a a as bs).mpr
            (Or.inr ⟨lt_irrefl a, lt_irrefl a, h'⟩))
        · exact Or.inr ((nameLeBConsIff a a bs as).mpr
            (Or.inr ⟨lt_irrefl a, lt_irrefl a, h'⟩))
      · exact Or.inr ((nameLeBConsIff b a bs as).mpr (Or.inl h))

theorem nameLeBTrans : ∀ as bs cs : List Char,
    nameLeB as bs = true → nameLeB bs cs = true → nameLeB as cs = true := by
  intro as
  induction as with
  | nil => intro bs cs _ _; rfl
  | cons a as ih =>
    intro bs cs h1 h2
    cases bs with
    | nil => simp [nameLeB] at h1
    | cons b bs =>
      cases cs with
      | nil => simp [nameLeB] at h2
      | cons c cs =>
        rcases (nameLeBConsIff a b as bs).mp h1 with hab | ⟨hab1, hab2, hrec1⟩
        · rcases (nameLeBConsIff b c bs cs).mp h2 with hbc | ⟨hbc1, hbc2, hrec2⟩
          · exact (nameLeBConsIff a c as cs).mpr (Or.inl (lt_trans hab hbc))
          · have hbceq : b = c := le_antisymm (not_lt.mp hbc2) (not_lt.mp hbc1)
            subst hbceq
            exact (nameLeBConsIff a b as cs).mpr (Or.inl hab)
        · have habeq : a = b := le_antisymm (not_lt.mp hab2) (not_lt.mp hab1)
          subst habeq
          rcases (nameLeBConsIff a c bs cs).mp h2 with hbc | ⟨hbc1, hbc2, hrec2⟩
          · exact (nameLeBConsIff a c as cs).mpr (Or.inl hbc)
          · have hbceq : a = c := le_antisymm (not_lt.mp hbc2) (not_lt.mp hbc1)
            subst hbceq
            exact (nameLeBConsIff a a as cs).mpr
              (Or.inr ⟨lt_irrefl a, lt_irrefl a, ih bs cs hrec1 hrec2⟩)

theorem nameLeBAntisymm : ∀ as bs : List Char,
    nameLeB as bs = true → nameLeB bs as = true → as = bs := by
  intro as
  induction as with
  | nil =>
    intro bs h1 h2
    cases bs with
    | nil => rfl
    | cons b bs => simp [nameLeB] at h2
  | cons a as ih =>
    intro bs h1 h2
    cases bs with
    | nil => simp [nameLeB] at h1
    | cons b bs =>
      rcases (nameLeBConsIff a b as bs).mp h1 with hab | ⟨hab1, hab2, hrec1⟩
      · rcases (nameLeBConsIff b a bs as).mp h2 with hba | ⟨hba1, hba2, hrec2⟩
        · exact absurd hba (lt_asymm hab)
        · exact absurd hab hba2
      · rcases (nameLeBConsIff b a bs as).mp h2 with hba | ⟨hba1, hba2, hrec2⟩
        · exact absurd hba hab2
        · have habeq : a = b := le_antisymm (not_lt.mp hab2) (not_lt.mp hab1)
          subst habeq
          rw [ih bs hrec1 hrec2]

instance : IsTotal (Nat × TeamName) rankLE := ⟨fun a b => by
  rcases lt_trichotomy a.1 b.1 with h | h | h
  · exact Or.inr (Or.inl h)
  · rcases nameLeBTotal a.2.data b.2.data with h' | h'
    · exact Or.inl (Or.inr ⟨h, h'⟩)
    · exact Or.inr (Or.inr ⟨h.symm, h'⟩)
  · exact Or.inl (Or.inl h)⟩

instance : IsTrans (Nat × TeamName) rankLE := ⟨fun a b c hab hbc => by
  rcases hab with h1 | ⟨h1, h1'⟩ <;> rcases hbc with h2 | ⟨h2, h2'⟩
  · exact Or.inl (lt_trans h2 h1)
  · exact Or.inl (h2 ▸ h1)
  · exact Or.inl (by rw [h1]; exact h2)
  · exact Or.inr ⟨h1.trans h2, nameLeBTrans _ _ _ h1' h2'⟩⟩

instance : IsAntisymm (Nat × TeamName) rankLE := ⟨by
  rintro ⟨a1, a2⟩ ⟨b1, b2⟩ hab hba
  rcases hab with h1 | ⟨h1, h1'⟩ <;> rcases hba with h2 | ⟨h2, h2'⟩
  · exact absurd h2 (lt_asymm h1)
  · rw [h2] at h1; exact absurd h1 (lt_irrefl _)
  · rw [h1] at h2; exact absurd h2 (lt_irrefl _)
  · have hd : a2.data = b2.data := nameLeBAntisymm _ _ h1' h2'
    have h2eq : a2 = b2 := by
      cases a2; cases b2; exact congrArg String.mk hd
    exact Prod.ext h1 h2eq⟩

theorem sortLeagueSorted (ps : List (Nat × TeamName)) :
    List.Sorted rankLE (sortLeague ps) :=
  List.sorted_insertionSort rankLE ps

theorem sortLeaguePerm (ps : List (Nat × TeamName)) : (sortLeague ps).Perm ps :=
  List.perm_insertionSort rankLE ps

theorem sortLeagueEqOfPerm {ps qs : List (Nat × TeamName)} (h : ps.Perm qs) :
    sortLeague ps = sortLeague qs :=
  List.eq_of_perm_of_sorted ((sortLeaguePerm ps).trans (h.trans (sortLeaguePerm qs).symm))
    (sortLeagueSorted ps) (sortLeagueSorted qs)

/-- C2: the standings are sorted by the descending-points /
ascending-name order, permuting the mapping's iteration order never
changes the rendered table, and the emitted ranks are exactly
`1, 2, ..., n` with no gaps or repeats. -/
theorem c2_ranking_total_order (ps qs : List (Nat × TeamName)) (h : ps.Perm qs) :
    List.Sorted rankLE (sortLeague ps) ∧
    tableLoop "" 0 (sortLeague ps) = tableLoop "" 0 (sortLeague qs) ∧
    ((sortLeague ps).enum.map fun ip => ip.1 + 1) = List.range' 1 ps.length := by
  refine ⟨sortLeagueSorted ps, by rw [sortLeagueEqOfPerm h], ?_⟩
  have h1 : ((sortLeague ps).enum.map fun ip => ip.1 + 1)
      = ((sortLeague ps).enum.map Prod.fst).map (· + 1) := by
    rw [List.map_map]; rfl
  rw [h1, List.enum_map_fst, (sortLeaguePerm ps).length_eq, List.range_eq_range']
  rw [show (fun x => x + 1) = (fun x : Nat => 1 + x) from funext fun x => Nat.add_comm x 1]
  rw [List.map_add_range']

/-- Witness for C2 on a two-team mapping given in two different orders. -/
theorem c2_witness :
    List.Sorted rankLE (sortLeague [(1, "B"), (2, "A")]) ∧
    tableLoop "" 0 (sortLeague [(1, "B"), (2, "A")])
      = tableLoop "" 0 (sortLeague [(2, "A"), (1, "B")]) ∧
    ((sortLeague [(1, "B"), (2, "A")]).enum.map fun ip => ip.1 + 1) = List.range' 1 2 :=
  c2_ranking_total_order [(1, "B"), (2, "A")] [(2, "A"), (1, "B")] (by decide)

/-- C9: the pipeline is a function of the input lines alone (running it
twice gives identical output), rendering the final mapping is invariant
under permutation of the mapping's unspecified iteration order, and
replaying the same outcome sequence through a fresh mapping rebuilds the
same totals. -/
theorem c9_determinism (lines : List String) (m m' : LeagueMap) (hm : m.Perm m')
    (os : List MatchResult) :
    footballLeague lines = footballLeague lines ∧
    renderLeague m = renderLeague m' ∧
    applyOutcomes [] os = applyOutcomes [] os := by
  refine ⟨rfl, ?_, rfl⟩
  unfold renderLeague
  rw [sortLeagueEqOfPerm (hm.map _)]

/-- Witness for C9 on a concrete input and a two-entry mapping. -/
theorem c9_witness :
    footballLeague ["Lions 3, Snakes 3"] = footballLeague ["Lions 3, Snakes 3"] ∧
    renderLeague [("A", 1), ("B", 2)] = renderLeague [("B", 2), ("A", 1)] ∧
    applyOutcomes [] [.draw "A" "B"] = applyOutcomes [] [.draw "A" "B"] :=
  c9_determinism ["Lions 3, Snakes 3"] [("A", 1), ("B", 2)] [("B", 2), ("A", 1)]
    (by decide) [.draw "A" "B"]

theorem lookupEntryAddSelf (k : TeamName) (add dflt : Nat) (l : LeagueMap) :
    lookupTeam k (entryAddOrInsert k add dflt l) =
      some (match lookupTeam k l with
        | some v => (v + add) % 2 ^ 32
        | none => dflt) := by
  induction l with
  | nil => simp [entryAddOrInsert, lookupTeam]
  | cons p rest ih =>
    obtain ⟨k', v⟩ := p
    by_cases h : k' = k
    · subst h; simp [entryAddOrInsert, lookupTeam]
    · simp [entryAddOrInsert, lookupTeam, h, ih]

theorem lookupEntryAddNe (t k : TeamName) (add dflt : Nat) (l : LeagueMap) (h : t ≠ k) :
    lookupTeam t (entryAddOrInsert k add dflt l) = lookupTeam t l := by
  induction l with
  | nil => simp [entryAddOrInsert, lookupTeam, Ne.symm h]
  | cons p rest ih =>
    obtain ⟨k', v⟩ := p
    by_cases hk : k' = k
    · subst hk; simp [entryAddOrInsert, lookupTeam, Ne.symm h]
    · simp [entryAddOrInsert, lookupTeam, hk, ih]

theorem lookupEntryOrSelf (k : TeamName) (dflt : Nat) (l : LeagueMap) :
    lookupTeam k (entryOrInsert k dflt l) = some ((lookupTeam k l).getD dflt) := by
  induction l with
  | nil => simp [entryOrInsert, lookupTeam]
  | cons p rest ih =>
    obtain ⟨k', v⟩ := p
    by_cases h : k' = k
    · subst h; simp [entryOrInsert, lookupTeam]
    · simp [entryOrInsert, lookupTeam, h, ih]

theorem lookupEntryOrNe (t k : TeamName) (dflt : Nat) (l : LeagueMap) (h : t ≠ k) :
    lookupTeam t (entryOrInsert k dflt l) = lookupTeam t l := by
  induction l with
  | nil => simp [entryOrInsert, lookupTeam, Ne.symm h]
  | cons p rest ih =>
    obtain ⟨k', v⟩ := p
    by_cases hk : k' = k
    · subst hk; simp [entryOrInsert, lookupTeam, Ne.symm h]
    · simp [entryOrInsert, lookupTeam, hk, ih]

theorem lookupEntryAddSome (k : TeamName) (add dflt : Nat) (l : LeagueMap)
    (t : TeamName) (v : Nat) (h : lookupTeam t l = some v) :
    lookupTeam t (entryAddOrInsert k add dflt l)
      = some (if t = k then (v + add) % 2 ^ 32 else v) := by
  by_cases ht : t = k
  · subst ht
    rw [lookupEntryAddSelf, h, if_pos rfl]
  · rw [lookupEntryAddNe t k add dflt l ht, h, if_neg ht]

theorem lookupEntryOrSome (k : TeamName) (dflt : Nat) (l : LeagueMap)
    (t : TeamName) (v : Nat) (h : lookupTeam t l = some v) :
    lookupTeam t (entryOrInsert k dflt l) = some v := by
  by_cases ht : t = k
  · subst ht
    rw [lookupEntryOrSelf, h]
    rfl
  · rw [lookupEntryOrNe t k dflt l ht, h]

/-- C3 counterexample: a winner already holding `u32::MAX` points. The
`*score += 3` wraps modulo `2 ^ 32`, so the stored value drops from
`2 ^ 32 - 1` to `2`: the step neither adds 3 nor avoids decreasing a
points value. -/
theorem c3_counterexample :
    lookupTeam "A" (accumulate [("A", 2 ^ 32 - 1)] (.win "A" "B")) = some 2 ∧
    (2 : Nat) < 2 ^ 32 - 1 ∧ (2 : Nat) ≠ (2 ^ 32 - 1) + 3 := by
  refine ⟨?_, by norm_num, by norm_num⟩
  show lookupTeam "A"
      (entryOrInsert "B" 0 (entryAddOrInsert "A" 3 3 [("A", 2 ^ 32 - 1)])) = some 2
  rw [lookupEntryOrNe _ _ _ _ (by decide), lookupEntryAddSelf]
  norm_num [lookupTeam]

/-- C3 amended: accumulating a win sets the winner's points to
`(old + 3) % 2 ^ 32` — i.e. adds 3 under `u32` wrapping, inserting 3 when
absent — and leaves a present loser untouched while inserting an absent
loser at 0; a draw adds 1 modulo `2 ^ 32` to each side (inserting 1 when
absent); teams not involved are untouched; no step removes a key, and no
stored value decreases as long as it stays at least 3 below `2 ^ 32`. -/
theorem c3_accumulate_spec (l : LeagueMap) (won lost team1 team2 : TeamName) :
    (won ≠ lost →
      lookupTeam won (accumulate l (.win won lost))
        = some (((lookupTeam won l).getD 0 + 3) % 2 ^ 32) ∧
      lookupTeam lost (accumulate l (.win won lost))
        = some ((lookupTeam lost l).getD 0) ∧
      (∀ t, t ≠ won → t ≠ lost →
        lookupTeam t (accumulate l (.win won lost)) = lookupTeam t l)) ∧
    (team1 ≠ team2 →
      lookupTeam team1 (accumulate l (.draw team1 team2))
        = some (((lookupTeam team1 l).getD 0 + 1) % 2 ^ 32) ∧
      lookupTeam team2 (accumulate l (.draw team1 team2))
        = some (((lookupTeam team2 l).getD 0 + 1) % 2 ^ 32) ∧
      (∀ t, t ≠ team1 → t ≠ team2 →
        lookupTeam t (accumulate l (.draw team1 team2)) = lookupTeam t l)) ∧
    (∀ (mr : MatchResult) (t : TeamName) (v : Nat), lookupTeam t l = some v →
      v + 3 < 2 ^ 32 →
      ∃ w, lookupTeam t (accumulate l mr) = some w ∧ v ≤ w) := by
  refine ⟨fun hwl => ⟨?_, ?_, ?_⟩, fun h12 => ⟨?_, ?_, ?_⟩, ?_⟩
  · show lookupTeam won (entryOrInsert lost 0 (entryAddOrInsert won 3 3 l)) = _
    rw [lookupEntryOrNe won lost 0 _ hwl, lookupEntryAddSelf]
    cases lookupTeam won l <;> rfl
  · show lookupTeam lost (entryOrInsert lost 0 (entryAddOrInsert won 3 3 l)) = _
    rw [lookupEntryOrSelf, lookupEntryAddNe lost won 3 3 l (Ne.symm hwl)]
  · intro t htw htl
    show lookupTeam t (entryOrInsert lost 0 (entryAddOrInsert won 3 3 l)) = _
    rw [lookupEntryOrNe t lost 0 _ htl, lookupEntryAddNe t won 3 3 l htw]
  · show lookupTeam team1 (entryAddOrInsert team2 1 1 (entryAddOrInsert team1 1 1 l)) = _
    rw [lookupEntryAddNe team1 team2 1 1 _ h12, lookupEntryAddSelf]
    cases lookupTeam team1 l <;> rfl
  · show lookupTeam team2 (entryAddOrInsert team2 1 1 (entryAddOrInsert team1 1 1 l)) = _
    rw [lookupEntryAddSelf, lookupEntryAddNe team2 team1 1 1 l (Ne.symm h12)]
    cases lookupTeam team2 l <;> rfl
  · intro t ht1 ht2
    show lookupTeam t (entryAddOrInsert team2 1 1 (entryAddOrInsert team1 1 1 l)) = _
    rw [lookupEntryAddNe t team2 1 1 _ ht2, lookupEntryAddNe t team1 1 1 l ht1]
  · rintro (⟨w, lo⟩ | ⟨d1, d2⟩) t v h hlt
    · have h1 := lookupEntryAddSome w 3 3 l t v h
      have h2 := lookupEntryOrSome lo 0 _ t _ h1
      refine ⟨_, h2, ?_⟩
      by_cases ht : t = w
      · rw [if_pos ht, Nat.mod_eq_of_lt hlt]
        exact Nat.le_add_right v 3
      · rw [if_neg ht]
    · have h1 := lookupEntryAddSome d1 1 1 l t v h
      have h2 := lookupEntryAddSome d2 1 1 _ t _ h1
      refine ⟨_, h2, ?_⟩
      have hv1 : v + 1 < 2 ^ 32 := by omega
      by_cases h1t : t = d1 <;> by_cases h2t : t = d2
      · rw [if_pos h2t, if_pos h1t, Nat.mod_eq_of_lt hv1,
          Nat.mod_eq_of_lt (by omega : v + 1 + 1 < 2 ^ 32)]
        omega
      · rw [if_neg h2t, if_pos h1t, Nat.mod_eq_of_lt hv1]
        omega
      · rw [if_pos h2t, if_neg h1t, Nat.mod_eq_of_lt hv1]
        omega
      · rw [if_neg h2t, if_neg h1t]

/-- Witness for the amended C3 on a one-entry mapping, exercising win,
draw and the bounded no-decrease clause. -/
theorem c3_witness :
    lookupTeam "A" (accumulate [("A", 5)] (.win "A" "B")) = some 8 ∧
    lookupTeam "B" (accumulate [("A", 5)] (.win "A" "B")) = some 0 ∧
    lookupTeam "C" (accumulate [("A", 5)] (.win "A" "B")) = lookupTeam "C" [("A", 5)] ∧
    lookupTeam "A" (accumulate [] (.draw "A" "B")) = some 1 ∧
    (∃ w, lookupTeam "A" (accumulate [("A", 5)] (.win "A" "B")) = some w ∧ 5 ≤ w) := by
  have h := (c3_accumulate_spec [("A", 5)] "A" "B" "A" "B").1 (by decide)
  have h2 := (c3_accumulate_spec [] "A" "B" "A" "B").2.1 (by decide)
  have h3 := (c3_accumulate_spec [("A", 5)] "A" "B" "A" "B").2.2
    (.win "A" "B") "A" 5 (by decide) (by norm_num)
  exact ⟨h.1.trans (by decide), h.2.1.trans (by decide),
    h.2.2 "C" (by decide) (by decide), h2.1.trans (by decide), h3⟩

theorem earnedEqZero (t : TeamName) (mr : MatchResult) (h : ¬ mentions t mr) :
    earned t mr = 0 := by
  cases mr with
  | win won lost =>
    have hw : t ≠ won := fun he => h (Or.inl he)
    simp [earned, hw]
  | draw team1 team2 =>
    have h1 : t ≠ team1 := fun he => h (Or.inl he)
    have h2 : t ≠ team2 := fun he => h (Or.inr he)
    simp [earned, h1, h2]

theorem lookupMem (t : TeamName) (l : LeagueMap) (v : Nat) :
    lookupTeam t l = some v → (t, v) ∈ l := by
  induction l with
  | nil => intro h; cases h
  | cons q rest ih =>
    obtain ⟨k', v'⟩ := q
    intro h
    by_cases hk : k' = t
    · subst hk
      simp [lookupTeam] at h
      subst h
      exact List.mem_cons_self _ _
    · simp [lookupTeam, hk] at h
      exact List.mem_cons_of_mem _ (ih h)

theorem valuesLtEntryAdd (k : TeamName) (add dflt : Nat) (l : LeagueMap)
    (hd : dflt < 2 ^ 32) (h : ∀ p ∈ l, p.2 < 2 ^ 32) :
    ∀ p ∈ entryAddOrInsert k add dflt l, p.2 < 2 ^ 32 := by
  induction l with
  | nil =>
    intro p hp
    simp [entryAddOrInsert] at hp
    rw [hp]
    exact hd
  | cons q rest ih =>
    obtain ⟨k', v⟩ := q
    intro p hp
    by_cases hk : k' = k
    · subst hk
      simp [entryAddOrInsert] at hp
      rcases hp with rfl | hp
      · exact Nat.mod_lt _ (by norm_num)
      · exact h p (List.mem_cons_of_mem _ hp)
    · simp [entryAddOrInsert, hk] at hp
      rcases hp with rfl | hp
      · exact h (k', v) (List.mem_cons_self _ _)
      · exact ih (fun q hq => h q (List.mem_cons_of_mem _ hq)) p hp

theorem valuesLtEntryOr (k : TeamName) (dflt : Nat) (l : LeagueMap)
    (hd : dflt < 2 ^ 32) (h : ∀ p ∈ l, p.2 < 2 ^ 32) :
    ∀ p ∈ entryOrInsert k dflt l, p.2 < 2 ^ 32 := by
  induction l with
  | nil =>
    intro p hp
    simp [entryOrInsert] at hp
    rw [hp]
    exact hd
  | cons q rest ih =>
    obtain ⟨k', v⟩ := q
    intro p hp
    by_cases hk : k' = k
    · subst hk
      simp [entryOrInsert] at hp
      rcases hp with rfl | hp
      · exact h (k', v) (List.mem_cons_self _ _)
      · exact h p (List.mem_cons_of_mem _ hp)
    · simp [entryOrInsert, hk] at hp
      rcases hp with rfl | hp
      · exact h (k', v) (List.mem_cons_self _ _)
      · exact ih (fun q hq => h q (List.mem_cons_of_mem _ hq)) p hp

theorem valuesLtAccumulate (l : LeagueMap) (mr : MatchResult)
    (h : ∀ p ∈ l, p.2 < 2 ^ 32) : ∀ p ∈ accumulate l mr, p.2 < 2 ^ 32 := by
  cases mr with
  | win won lost =>
    exact valuesLtEntryOr lost 0 _ (by norm_num)
      (valuesLtEntryAdd won 3 3 l (by norm_num) h)
  | draw team1 team2 =>
    exact valuesLtEntryAdd team2 1 1 _ (by norm_num)
      (valuesLtEntryAdd team1 1 1 l (by norm_num) h)

theorem valuesLtApplyOutcomes (os : List MatchResult) :
    ∀ l : LeagueMap, (∀ p ∈ l, p.2 < 2 ^ 32) →
      ∀ p ∈ applyOutcomes l os, p.2 < 2 ^ 32 := by
  induction os with
  | nil => intro l h; exact h
  | cons mr os ih => intro l h; exact ih _ (valuesLtAccumulate l mr h)

theorem lookupAccumulate (l : LeagueMap) (mr : MatchResult) (t : TeamName)
    (hl : ∀ p ∈ l, p.2 < 2 ^ 32) :
    lookupTeam t (accumulate l mr) =
      match lookupTeam t l with
      | some v => some ((v + earned t mr) % 2 ^ 32)
      | none => if mentions t mr then some (earned t mr) else none := by
  cases mr with
  | win won lost =>
    show lookupTeam t (entryOrInsert lost 0 (entryAddOrInsert won 3 3 l)) = _
    by_cases htw : t = won
    · subst htw
      by_cases htl : t = lost
      · subst htl
        rw [lookupEntryOrSelf, lookupEntryAddSelf]
        cases lookupTeam t l <;> simp [earned, mentions]
      · rw [lookupEntryOrNe t lost 0 _ htl, lookupEntryAddSelf]
        cases lookupTeam t l <;> simp [earned, mentions]
    · by_cases htl : t = lost
      · subst htl
        rw [lookupEntryOrSelf, lookupEntryAddNe t won 3 3 l htw]
        cases hv : lookupTeam t l with
        | none => simp [earned, mentions, htw]
        | some v =>
          have hvlt : v < 2 ^ 32 := hl (t, v) (lookupMem t l v hv)
          simp [earned, mentions, htw]
          omega
      · rw [lookupEntryOrNe t lost 0 _ htl, lookupEntryAddNe t won 3 3 l htw]
        cases hv : lookupTeam t l with
        | none => simp [earned, mentions, htw, htl]
        | some v =>
          have hvlt : v < 2 ^ 32 := hl (t, v) (lookupMem t l v hv)
          simp [earned, mentions, htw, htl]
          omega
  | draw team1 team2 =>
    show lookupTeam t (entryAddOrInsert team2 1 1 (entryAddOrInsert team1 1 1 l)) = _
    by_cases ht1 : t = team1
    · subst ht1
      by_cases ht2 : t = team2
      · subst ht2
        rw [lookupEntryAddSelf, lookupEntryAddSelf]
        cases lookupTeam t l <;> simp [earned, mentions, Nat.mod_add_mod]
      · rw [lookupEntryAddNe t team2 1 1 _ ht2, lookupEntryAddSelf]
        cases lookupTeam t l <;> simp [earned, mentions, ht2]
    · by_cases ht2 : t = team2
      · subst ht2
        rw [lookupEntryAddSelf, lookupEntryAddNe t team1 1 1 l ht1]
        cases lookupTeam t l <;> simp [earned, mentions, ht1]
      · rw [lookupEntryAddNe t team2 1 1 _ ht2, lookupEntryAddNe t team1 1 1 l ht1]
        cases hv : lookupTeam t l with
        | none => simp [earned, mentions, ht1, ht2]
        | some v =>
          have hvlt : v < 2 ^ 32 := hl (t, v) (lookupMem t l v hv)
          simp [earned, mentions, ht1, ht2]
          omega

theorem lookupApplyOutcomes (os : List MatchResult) :
    ∀ (l : LeagueMap) (t : TeamName), (∀ p ∈ l, p.2 < 2 ^ 32) →
      lookupTeam t (applyOutcomes l os) =
        match lookupTeam t l with
        | some v => some ((v + totalEarned t os) % 2 ^ 32)
        | none => if mentionsAny t os then some (totalEarned t os % 2 ^ 32) else none := by
  induction os with
  | nil =>
    intro l t hl
    show lookupTeam t l = _
    cases h : lookupTeam t l
    · have hno : ¬ mentionsAny t [] := by
        rintro ⟨mr, hmr, _⟩
        exact absurd hmr (List.not_mem_nil mr)
      simp [hno]
    · rename_i v
      have hvlt : v < 2 ^ 32 := hl (t, v) (lookupMem t l v h)
      simp [totalEarned]
      omega
  | cons mr os ih =>
    intro l t hl
    show lookupTeam t (applyOutcomes (accumulate l mr) os) = _
    rw [ih (accumulate l mr) t (valuesLtAccumulate l mr hl), lookupAccumulate l mr t hl]
    have htot : totalEarned t (mr :: os) = earned t mr + totalEarned t os := by
      simp [totalEarned]
    cases h : lookupTeam t l
    · by_cases hm : mentions t mr
      · have hmem : mentionsAny t (mr :: os) := ⟨mr, List.mem_cons_self mr os, hm⟩
        simp [hm, hmem, htot]
      · have hiff : mentionsAny t (mr :: os) ↔ mentionsAny t os := by
          constructor
          · rintro ⟨mr', hmr', hm'⟩
            rcases List.mem_cons.mp hmr' with rfl | hmem'
            · exact absurd hm' hm
            · exact ⟨mr', hmem', hm'⟩
          · rintro ⟨mr', hmr', hm'⟩
            exact ⟨mr', List.mem_cons_of_mem mr hmr', hm'⟩
        simp [hm, hiff, htot, earnedEqZero t mr hm]
    · simp [htot, Nat.mod_add_mod, Nat.add_assoc]

theorem keysEntryAdd (k : TeamName) (add dflt : Nat) (l : LeagueMap) :
    (entryAddOrInsert k add dflt l).map Prod.fst =
      if k ∈ l.map Prod.fst then l.map Prod.fst else l.map Prod.fst ++ [k] := by
  induction l with
  | nil => simp [entryAddOrInsert]
  | cons p rest ih =>
    obtain ⟨k', v⟩ := p
    by_cases h : k' = k
    · subst h; simp [entryAddOrInsert]
    · by_cases hk : k ∈ rest.map Prod.fst <;>
        simp [entryAddOrInsert, h, ih, hk, Ne.symm h]

theorem keysEntryOr (k : TeamName) (dflt : Nat) (l : LeagueMap) :
    (entryOrInsert k dflt l).map Prod.fst =
      if k ∈ l.map Prod.fst then l.map Prod.fst else l.map Prod.fst ++ [k] := by
  induction l with
  | nil => simp [entryOrInsert]
  | cons p rest ih =>
    obtain ⟨k', v⟩ := p
    by_cases h : k' = k
    · subst h; simp [entryOrInsert]
    · by_cases hk : k ∈ rest.map Prod.fst <;>
        simp [entryOrInsert, h, ih, hk, Ne.symm h]

theorem keysAppendNodup (ks : List TeamName) (k : TeamName) (h : ks.Nodup) :
    (if k ∈ ks then ks else ks ++ [k]).Nodup := by
  by_cases hk : k ∈ ks
  · simpa [hk]
  · rw [if_neg hk]
    rw [List.nodup_append]
    refine ⟨h, List.nodup_singleton k, ?_⟩
    intro a ha hak
    rw [List.mem_singleton] at hak
    subst hak
    exact hk ha

theorem nodupAccumulate (l : LeagueMap) (mr : MatchResult)
    (h : (l.map Prod.fst).Nodup) : ((accumulate l mr).map Prod.fst).Nodup := by
  cases mr with
  | win won lost =>
    show ((entryOrInsert lost 0 (entryAddOrInsert won 3 3 l)).map Prod.fst).Nodup
    have h1 : ((entryAddOrInsert won 3 3 l).map Prod.fst).Nodup := by
      rw [keysEntryAdd]; exact keysAppendNodup _ won h
    rw [keysEntryOr]
    exact keysAppendNodup _ lost h1
  | draw team1 team2 =>
    show ((entryAddOrInsert team2 1 1 (entryAddOrInsert team1 1 1 l)).map Prod.fst).Nodup
    have h1 : ((entryAddOrInsert team1 1 1 l).map Prod.fst).Nodup := by
      rw [keysEntryAdd]; exact keysAppendNodup _ team1 h
    rw [keysEntryAdd]
    exact keysAppendNodup _ team2 h1

theorem nodupApplyOutcomes (os : List MatchResult) :
    ∀ l : LeagueMap, (l.map Prod.fst).Nodup → ((applyOutcomes l os).map Prod.fst).Nodup := by
  induction os with
  | nil => intro l h; exact h
  | cons mr os ih => intro l h; exact ih _ (nodupAccumulate l mr h)

theorem replicateWinLookup (n : Nat) :
    lookupTeam "A" (applyOutcomes [] (List.replicate (n + 1) (.win "A" "B")))
      = some ((3 * (n + 1)) % 2 ^ 32) := by
  induction n with
  | zero =>
    show lookupTeam "A" (applyOutcomes [] [.win "A" "B"]) = _
    norm_num [applyOutcomes, accumulate, entryAddOrInsert, entryOrInsert, lookupTeam]
  | succ n ih =>
    rw [List.replicate_succ' (n + 1), applyOutcomes, List.foldl_append]
    have hstep := lookupAccumulate (applyOutcomes [] (List.replicate (n + 1) (.win "A" "B")))
      (.win "A" "B") "A"
      (valuesLtApplyOutcomes _ [] (fun p hp => absurd hp (List.not_mem_nil p)))
    rw [show List.foldl accumulate []
        (List.replicate (n + 1) (MatchResult.win "A" "B"))
        = applyOutcomes [] (List.replicate (n + 1) (.win "A" "B")) from rfl] at *
    rw [show List.foldl accumulate
        (applyOutcomes [] (List.replicate (n + 1) (.win "A" "B"))) [MatchResult.win "A" "B"]
        = accumulate (applyOutcomes [] (List.replicate (n + 1) (.win "A" "B")))
            (.win "A" "B") from rfl]
    rw [hstep, ih]
    have hearn : earned "A" (.win "A" "B") = 3 := by simp [earned]
    show some ((3 * (n + 1) % 2 ^ 32 + earned "A" (.win "A" "B")) % 2 ^ 32)
      = some (3 * (n + 1 + 1) % 2 ^ 32)
    rw [hearn, Nat.mod_add_mod]
    congr 1

/-- C8 counterexample: replaying `2 ^ 32` wins for one team. The exact
earned sum is `3 * 2 ^ 32`, but the `u32` accumulator wraps and stores
`(3 * 2 ^ 32) % 2 ^ 32 = 0`, so stored points do not equal the sum of
points earned. -/
theorem c8_counterexample :
    lookupTeam "A" (applyOutcomes [] (List.replicate (2 ^ 32) (.win "A" "B"))) = some 0 ∧
    totalEarned "A" (List.replicate (2 ^ 32) (.win "A" "B")) = 3 * 2 ^ 32 ∧
    (0 : Nat) ≠ 3 * 2 ^ 32 := by
  refine ⟨?_, ?_, by norm_num⟩
  · have h := replicateWinLookup (2 ^ 32 - 1)
    rw [show (2 : Nat) ^ 32 - 1 + 1 = 2 ^ 32 from by norm_num] at h
    rw [h, Nat.mul_mod_left]
  · have hearn : earned "A" (.win "A" "B") = 3 := by simp [earned]
    rw [totalEarned, List.map_replicate, hearn, List.sum_replicate, smul_eq_mul]
    omega

/-- C8 amended: starting from the empty mapping, a team is present after a
sequence of outcomes exactly when some processed outcome mentions it, its
stored points are the sum of the points it earned reduced modulo `2 ^ 32`
(the wrapping `u32` sum, which equals the exact sum whenever that sum is
below `2 ^ 32`), the key list never holds a team twice, and stored points
(being `Nat`, like the `u32` of the code) are never negative. Quantifying
over all outcome lists covers the state after every per-line accumulation
step. -/
theorem c8_league_invariant (os : List MatchResult) (t : TeamName) :
    (lookupTeam t (applyOutcomes [] os)
      = if mentionsAny t os then some (totalEarned t os % 2 ^ 32) else none) ∧
    ((applyOutcomes [] os).map Prod.fst).Nodup ∧
    (∀ v, lookupTeam t (applyOutcomes [] os) = some v → 0 ≤ v) := by
  refine ⟨?_, nodupApplyOutcomes os [] (by simp), fun v _ => Nat.zero_le v⟩
  exact lookupApplyOutcomes os [] t (fun p hp => absurd hp (List.not_mem_nil p))

/-- Witness for the amended C8 on a win plus a draw mentioning the same
team: the wrapped sum below `2 ^ 32` is the plain sum 4. -/
theorem c8_witness :
    lookupTeam "A" (applyOutcomes [] [.win "A" "B", .draw "A" "C"]) = some 4 ∧
    ((applyOutcomes [] [.win "A" "B", .draw "A" "C"]).map Prod.fst).Nodup := by
  have h := c8_league_invariant [.win "A" "B", .draw "A" "C"] "A"
  exact ⟨h.1.trans (by decide), h.2.1⟩

theorem lexHalfEqNoneIff (half : List Char) : lexHalf half = none ↔ badHalf half := by
  unfold lexHalf badHalf
  by_cases he : trimChars half = []
  · simp [he]
  · cases hp : parseU32 ((splitWs (trimChars half)).getLast?.getD []) <;> simp [he, hp]

theorem lexHalvesEqNoneIff (hs : List (List Char)) :
    lexHalves hs = none ↔ ∃ h ∈ hs, lexHalf h = none := by
  induction hs with
  | nil => simp [lexHalves]
  | cons h hs ih =>
    cases hh : lexHalf h with
    | none =>
      constructor
      · intro _
        exact ⟨h, List.mem_cons_self h hs, hh⟩
      · intro _
        simp [lexHalves, hh]
    | some t =>
      have heq : lexHalves (h :: hs) = (lexHalves hs).map (t :: ·) := by
        simp [lexHalves, hh]
      rw [heq]
      simp [ih, hh]

theorem lexHalvesLength (hs : List (List Char)) :
    ∀ ts, lexHalves hs = some ts → ts.length = hs.length := by
  induction hs with
  | nil =>
    intro ts h
    simp [lexHalves] at h
    simp [← h]
  | cons hd hs ih =>
    intro ts h
    cases hh : lexHalf hd
    · simp [lexHalves, hh] at h
    · simp [lexHalves, hh] at h
      obtain ⟨ts', hts', rfl⟩ := h
      simp [ih ts' hts']

theorem lexEqMalformedIff (line : String) :
    lex line = .malformed ↔ lexHalves (splitTerminator ',' line.data) = none := by
  unfold lex
  cases hlh : lexHalves (splitTerminator ',' line.data) with
  | none => simp
  | some ts =>
    cases ts with
    | nil => simp
    | cons t1 ts' =>
      cases ts' with
      | nil => simp
      | cons t2 ts'' => simp

theorem lexEqPanicIff (line : String) :
    lex line = .panic ↔
      ∃ ts, lexHalves (splitTerminator ',' line.data) = some ts ∧ ts.length < 2 := by
  unfold lex
  cases hlh : lexHalves (splitTerminator ',' line.data) with
  | none => simp
  | some ts =>
    cases ts with
    | nil => simp
    | cons t1 ts' =>
      cases ts' with
      | nil => simp
      | cons t2 ts'' => simp

/-- C5 counterexample: a line with three well-formed comma-separated
halves does NOT fail lexing; the first two token pairs are returned and
the third half is silently dropped. -/
theorem c5_counterexample :
    (splitTerminator ',' ("A 1, B 2, C 3" : String).data).length = 3 ∧
    lex "A 1, B 2, C 3" = .ok ⟨("A", 1), ("B", 2)⟩ := by
  decide

/-- C5 amended: lexing signals malformed exactly when some
comma-separated half is empty after trimming or its trailing token does
not parse as a non-negative integer; a line whose split yields fewer than
two (well-formed) halves makes the token indexing panic instead of
returning `None`; and when the split yields two or more halves, none
malformed, lexing returns the token pairs of the first two halves in line
order. -/
theorem c5_lex_characterization (line : String) :
    (lex line = .malformed ↔ ∃ h ∈ splitTerminator ',' line.data, badHalf h) ∧
    (lex line = .panic ↔
      ((∀ h ∈ splitTerminator ',' line.data, ¬ badHalf h) ∧
        (splitTerminator ',' line.data).length < 2)) ∧
    (∀ h1 h2 rest, splitTerminator ',' line.data = h1 :: h2 :: rest →
      (∀ h ∈ splitTerminator ',' line.data, ¬ badHalf h) →
      ∃ t1 t2, lexHalf h1 = some t1 ∧ lexHalf h2 = some t2 ∧
        lex line = .ok ⟨t1, t2⟩) := by
  refine ⟨?_, ?_, ?_⟩
  · rw [lexEqMalformedIff, lexHalvesEqNoneIff]
    constructor
    · rintro ⟨h, hmem, hnone⟩
      exact ⟨h, hmem, (lexHalfEqNoneIff h).mp hnone⟩
    · rintro ⟨h, hmem, hbad⟩
      exact ⟨h, hmem, (lexHalfEqNoneIff h).mpr hbad⟩
  · rw [lexEqPanicIff]
    constructor
    · rintro ⟨ts, hts, hlen⟩
      refine ⟨fun h hmem hbad => ?_, ?_⟩
      · have : lexHalves (splitTerminator ',' line.data) = none :=
          (lexHalvesEqNoneIff _).mpr ⟨h, hmem, (lexHalfEqNoneIff h).mpr hbad⟩
        rw [this] at hts
        cases hts
      · rw [← lexHalvesLength _ ts hts]
        exact hlen
    · rintro ⟨hgood, hlen⟩
      cases hts : lexHalves (splitTerminator ',' line.data) with
      | none =>
        obtain ⟨h, hmem, hnone⟩ := (lexHalvesEqNoneIff _).mp hts
        exact absurd ((lexHalfEqNoneIff h).mp hnone) (hgood h hmem)
      | some ts =>
        exact ⟨ts, rfl, by rw [lexHalvesLength _ ts hts]; exact hlen⟩
  · intro h1 h2 rest hsplit hgood
    have hm1 : h1 ∈ splitTerminator ',' line.data := by
      rw [hsplit]; exact List.mem_cons_self _ _
    have hm2 : h2 ∈ splitTerminator ',' line.data := by
      rw [hsplit]; exact List.mem_cons_of_mem _ (List.mem_cons_self _ _)
    have hb1 : lexHalf h1 ≠ none :=
      fun hn => hgood h1 hm1 ((lexHalfEqNoneIff h1).mp hn)
    have hb2 : lexHalf h2 ≠ none :=
      fun hn => hgood h2 hm2 ((lexHalfEqNoneIff h2).mp hn)
    obtain ⟨t1, ht1⟩ := Option.ne_none_iff_exists'.mp hb1
    obtain ⟨t2, ht2⟩ := Option.ne_none_iff_exists'.mp hb2
    have hrest : lexHalves rest ≠ none := by
      intro hn
      obtain ⟨h, hmem, hnone⟩ := (lexHalvesEqNoneIff rest).mp hn
      refine hgood h ?_ ((lexHalfEqNoneIff h).mp hnone)
      rw [hsplit]
      exact List.mem_cons_of_mem _ (List.mem_cons_of_mem _ hmem)
    obtain ⟨ts'', hts''⟩ := Option.ne_none_iff_exists'.mp hrest
    refine ⟨t1, t2, ht1, ht2, ?_⟩
    unfold lex
    rw [hsplit]
    have hall : lexHalves (h1 :: h2 :: rest) = some (t1 :: t2 :: ts'') := by
      simp [lexHalves, ht1, ht2, hts'']
    rw [hall]

/-- Witness for the amended C5 on a well-formed two-half line. -/
theorem c5_witness : lex "Lions 3, Snakes 4" = .ok ⟨("Lions", 3), ("Snakes", 4)⟩ := by
  obtain ⟨t1, t2, ht1, ht2, hok⟩ :=
    (c5_lex_characterization "Lions 3, Snakes 4").2.2
      ("Lions 3" : String).data (" Snakes 4" : String).data [] (by decide) (by decide)
  have e1 : t1 = ("Lions", 3) := by
    have h : lexHalf ("Lions 3" : String).data = some ("Lions", 3) := by decide
    exact Option.some.inj (ht1.symm.trans h)
  have e2 : t2 = ("Snakes", 4) := by
    have h : lexHalf (" Snakes 4" : String).data = some ("Snakes", 4) := by decide
    exact Option.some.inj (ht2.symm.trans h)
  rw [e1, e2] at hok
  exact hok

theorem flLoopAppendError (pre : List String) :
    ∀ (league : LeagueMap) (n : Nat) (bad : String) (rest : List String),
      (∀ l ∈ pre, trimChars l.data ≠ [] ∧ ∃ tokens, lex l = .ok tokens) →
      trimChars bad.data ≠ [] → lex bad = .malformed →
      flLoop league n (pre ++ bad :: rest) = .errorExit (n + pre.length + 1) := by
  induction pre with
  | nil =>
    intro league n bad rest _ hbad hlex
    show flLoop league n (bad :: rest) = _
    simp [flLoop, hbad, hlex]
  | cons p pre ih =>
    intro league n bad rest hpre hbad hlex
    obtain ⟨hp, tokens, hptok⟩ := hpre p (List.mem_cons_self p pre)
    show flLoop league n (p :: (pre ++ bad :: rest)) = _
    rw [show flLoop league n (p :: (pre ++ bad :: rest))
        = flLoop (accumulate league (parse tokens)) (n + 1) (pre ++ bad :: rest) from by
      simp [flLoop, hp, hptok]]
    rw [ih (accumulate league (parse tokens)) (n + 1) bad rest
      (fun l hl => hpre l (List.mem_cons_of_mem p hl)) hbad hlex]
    simp only [RunResult.errorExit.injEq, List.length_cons]
    omega

/-- C6: when every earlier consumed line is non-blank and lexes, and the
next line is non-blank and signals malformed, the program stops with the
`eprintln` diagnostic carrying that line's 1-indexed number, exits with a
non-zero status, and writes nothing at all to stdout. -/
theorem c6_malformed_line_aborts (pre : List String) (bad : String) (rest : List String)
    (hpre : ∀ l ∈ pre, trimChars l.data ≠ [] ∧ ∃ tokens, lex l = .ok tokens)
    (hbad : trimChars bad.data ≠ []) (hlex : lex bad = .malformed) :
    footballLeague (pre ++ bad :: rest) = .errorExit (pre.length + 1) ∧
    exitCode (footballLeague (pre ++ bad :: rest)) ≠ 0 ∧
    stdoutOf (footballLeague (pre ++ bad :: rest)) = none ∧
    stderrOf (footballLeague (pre ++ bad :: rest)) =
      some ("Error: invalid input on line: " ++ toString (pre.length + 1)) := by
  have h : footballLeague (pre ++ bad :: rest) = .errorExit (pre.length + 1) := by
    have hl := flLoopAppendError pre [] 0 bad rest hpre hbad hlex
    simpa [footballLeague] using hl
  rw [h]
  exact ⟨rfl, by simp [exitCode], rfl, rfl⟩

/-- Witness for C6: the second line fails to lex and is reported as
line 2, with exit status 1 and no table. -/
theorem c6_witness :
    footballLeague ["Lions 3, Snakes 3", "Lions x, Snakes 3"] = .errorExit 2 ∧
    exitCode (footballLeague ["Lions 3, Snakes 3", "Lions x, Snakes 3"]) ≠ 0 ∧
    stdoutOf (footballLeague ["Lions 3, Snakes 3", "Lions x, Snakes 3"]) = none ∧
    stderrOf (footballLeague ["Lions 3, Snakes 3", "Lions x, Snakes 3"]) =
      some ("Error: invalid input on line: " ++ toString 2) :=
  c6_malformed_line_aborts ["Lions 3, Snakes 3"] "Lions x, Snakes 3" []
    (by
      intro l hl
      rw [List.mem_singleton] at hl
      subst hl
      exact ⟨by decide, ⟨⟨("Lions", 3), ("Snakes", 3)⟩, by decide⟩⟩)
    (by decide) (by decide)

theorem splitWsNeNil (cs : List Char) : ∀ p ∈ splitWs cs, p ≠ [] := by
  intro p hp
  have h := List.mem_filter.mp hp
  simpa using h.2

theorem strMkNeEmpty (d : List Char) : (String.mk d ≠ "") ↔ d ≠ [] := by
  constructor
  · intro h hd
    exact h (by rw [hd])
  · intro h he
    exact h (congrArg String.data he)

theorem intercalateConsNeNil (p : List Char) (hp : p ≠ []) (ds : List (List Char)) :
    List.intercalate [' '] (p :: ds) ≠ [] := by
  cases ds with
  | nil => simpa [List.intercalate, List.intersperse]
  | cons d ds => simp [List.intercalate, List.intersperse, hp]

/-- C10 counterexample: the line `"3, 4"` lexes successfully and both
returned team names are the empty string. -/
theorem c10_counterexample : lex "3, 4" = .ok ⟨("", 3), ("", 4)⟩ := by
  decide

/-- C10 amended: a team name returned by half-lexing is non-empty exactly
when the trimmed half splits into at least two whitespace-separated
tokens; a half consisting of the score token alone yields the empty team
name. -/
theorem c10_team_nonempty_iff (half : List Char) (team : TeamName) (score : Nat)
    (h : lexHalf half = some (team, score)) :
    team ≠ "" ↔ 2 ≤ (splitWs (trimChars half)).length := by
  unfold lexHalf at h
  by_cases he : trimChars half = []
  · simp [he] at h
  · cases hp : parseU32 ((splitWs (trimChars half)).getLast?.getD []) with
    | none => simp [he, hp] at h
    | some s =>
      simp [he, hp] at h
      obtain ⟨hteam, hscore⟩ := h
      rw [← hteam]
      cases hparts : splitWs (trimChars half) with
      | nil =>
        simp [strMkNeEmpty, List.intercalate, List.intersperse]
      | cons p ps =>
        cases ps with
        | nil =>
          simp [strMkNeEmpty, List.intercalate, List.intersperse]
        | cons q qs =>
          rw [strMkNeEmpty]
          have hple : p ≠ [] := splitWsNeNil (trimChars half) p (by
            rw [hparts]; exact List.mem_cons_self _ _)
          have : (p :: q :: qs).dropLast = p :: (q :: qs).dropLast := by
            simp [List.dropLast]
          rw [this]
          constructor
          · intro _
            simp [List.length_cons]
          · intro _
            exact intercalateConsNeNil p hple _

/-- Witness for the amended C10 on the half `" FC Awesome 0"`. -/
theorem c10_witness :
    ("FC Awesome" : TeamName) ≠ ""
      ↔ 2 ≤ (splitWs (trimChars (" FC Awesome 0" : String).data)).length :=
  c10_team_nonempty_iff (" FC Awesome 0" : String).data "FC Awesome" 0 (by decide)

end League
